import Mathlib

/-!
Verification development for the Crypto Portfolio Dashboard
(`dashboard.py`): a linear pipeline that loads holdings from a JSON
file, fetches live USD prices, computes per-asset and aggregate
cost/value/PnL, and renders a fixed-width table.

The Python source is shallowly embedded below.  JSON values are an
inductive type; Python floats are modelled by `ℚ`; fallible Python
code (uncaught exceptions) is modelled by `Except PyErr`.  The file
system and the network are modelled by explicit input parameters
(`LoadInput`, `FetchOutcome`) covering every outcome the code
distinguishes.
-/

set_option autoImplicit false

namespace Dashboard

/-- Python exception classes that the embedded code can raise or catch. -/
inductive PyErr where
  | fileNotFound
  | jsonDecode
  | typeError
  | keyError
  | attributeError
  | valueError
  | indexError
  deriving DecidableEq, Repr

/-- A parsed JSON value, as produced by `json.load` / `json.loads`.
Python ints and floats are both modelled by `ℚ`. -/
inductive Json where
  | num  : ℚ → Json
  | str  : String → Json
  | bool : Bool → Json
  | null : Json
  | arr  : List Json → Json
  | obj  : List (String × Json) → Json

/-- Numeric value of a list of decimal digit characters (`none` on a
non-digit).  An empty list yields `some 0`; callers check emptiness. -/
def digitsVal (cs : List Char) : Option Nat :=
  cs.foldl
    (fun acc c =>
      acc.bind fun n => if c.isDigit then some (n * 10 + (c.toNat - 48)) else none)
    (some 0)

/-- Parse the mantissa part of a Python float literal: digits with an
optional decimal point, at least one digit overall. -/
def parseMantissa (cs : List Char) : Option ℚ :=
  match cs.splitOn '.' with
  | [i] =>
    if i = [] then none else (digitsVal i).map (fun n => (n : ℚ))
  | [i, f] =>
    if i = [] ∧ f = [] then none
    else
      (digitsVal i).bind fun ni =>
        (digitsVal f).map fun nf => (ni : ℚ) + (nf : ℚ) / (10 : ℚ) ^ f.length
  | _ => none

/-- Parse the optional exponent part (after `e`): signed digit string. -/
def parseExp (cs : List Char) : Option ℤ :=
  match cs with
  | '+' :: ds => if ds = [] then none else (digitsVal ds).map (fun n => (n : ℤ))
  | '-' :: ds => if ds = [] then none else (digitsVal ds).map (fun n => -(n : ℤ))
  | ds => if ds = [] then none else (digitsVal ds).map (fun n => (n : ℤ))

/-- Unsigned Python float literal: mantissa with optional exponent. -/
def parseUnsignedFloat (cs : List Char) : Option ℚ :=
  match cs.splitOn 'e' with
  | [m] => parseMantissa m
  | [m, e] =>
    (parseMantissa m).bind fun q => (parseExp e).map fun z => q * (10 : ℚ) ^ z
  | _ => none

/-- Model of the strings accepted by the Python builtin `float` applied
to a string: optional surrounding whitespace, optional sign, decimal
mantissa with optional exponent.  (The rarely used `inf`/`nan` literals
are outside the `ℚ` model and are not accepted.) -/
def parseFloat? (s : String) : Option ℚ :=
  match s.trim.toList.map Char.toLower with
  | '+' :: rest => parseUnsignedFloat rest
  | '-' :: rest => (parseUnsignedFloat rest).map Neg.neg
  | rest => parseUnsignedFloat rest

/-- Model of the Python builtin `float` applied to a JSON value:
numbers and booleans coerce, numeric strings parse, everything else
raises (`ValueError` for a non-numeric string, `TypeError` otherwise). -/
def pyFloat : Json → Except PyErr ℚ
  | .num q => .ok q
  | .bool b => .ok (if b then 1 else 0)
  | .str s =>
    match parseFloat? s with
    | some q => .ok q
    | none => .error .valueError
  | _ => .error .typeError

/-- Model of Python subscription `j[k]` with a string key: dict lookup
(`KeyError` when absent), `TypeError` on any non-dict. -/
def getItem (j : Json) (k : String) : Except PyErr Json :=
  match j with
  | .obj kvs =>
    match kvs.lookup k with
    | some v => .ok v
    | none => .error .keyError
  | _ => .error .typeError

/-- Model of the Python string method `upper`: upper-case every
character. -/
def strUpper (s : String) : String :=
  String.mk (s.data.map Char.toUpper)

/-- Model of the Python method call `j.upper()`: succeeds only on a
string, raising `AttributeError` otherwise. -/
def pyUpper : Json → Except PyErr String
  | .str s => .ok (strUpper s)
  | _ => .error .attributeError

/-- Model of Python iteration `for a in j`: lists yield their elements,
dicts their keys, strings their characters; every other value raises
`TypeError`.  Returns `none` for the non-iterable case. -/
def pyIter : Json → Option (List Json)
  | .arr xs => some xs
  | .obj kvs => some (kvs.map fun kv => .str kv.1)
  | .str s => some (s.toList.map fun c => .str (String.mk [c]))
  | _ => none

/-- Error-propagating elementwise map, mirroring a Python `for` loop
that can raise at any element. -/
def mapE {α β : Type} (f : α → Except PyErr β) : List α → Except PyErr (List β)
  | [] => .ok []
  | x :: xs => do
    let y ← f x
    let ys ← mapE f xs
    .ok (y :: ys)

/-- One holding record after normalization by `load_portfolio`. -/
structure Holding where
  symbol : String
  amount : ℚ
  buy_price_usd : ℚ
  deriving DecidableEq, Repr

/-- Normalization of one record inside `load_portfolio`:
`a["symbol"].upper()`, `float(a["amount"])`, `float(a["buy_price_usd"])`,
in source order, propagating the first exception. -/
def normRecord (a : Json) : Except PyErr Holding :=
  match getItem a "symbol" with
  | .error e => .error e
  | .ok symJ =>
    match pyUpper symJ with
    | .error e => .error e
    | .ok sym =>
      match getItem a "amount" with
      | .error e => .error e
      | .ok amtJ =>
        match pyFloat amtJ with
        | .error e => .error e
        | .ok amt =>
          match getItem a "buy_price_usd" with
          | .error e => .error e
          | .ok buyJ =>
            match pyFloat buyJ with
            | .error e => .error e
            | .ok buy => .ok ⟨sym, amt, buy⟩

/-- The outcomes of `open` + `json.load` on the portfolio file: the
file is missing (`FileNotFoundError`), its contents are not valid JSON
(`json.JSONDecodeError`), or they parse to a JSON value. -/
inductive LoadInput where
  | missing
  | invalidJson
  | parsed : Json → LoadInput

/-- Embedding of `load_portfolio`: read and parse the file, then
normalize each record of the parsed value in place.  Iteration over a
non-iterable parsed value raises `TypeError`; any exception propagates
to the caller. -/
def load_portfolio : LoadInput → Except PyErr (List Holding)
  | .missing => .error .fileNotFound
  | .invalidJson => .error .jsonDecode
  | .parsed j =>
    match pyIter j with
    | none => .error .typeError
    | some xs => mapE normRecord xs

/-- The hardcoded ticker → CoinGecko identifier table `CG_IDS`. -/
def CG_IDS : List (String × String) :=
  [("BTC", "bitcoin"),
   ("ETH", "ethereum"),
   ("SOL", "solana"),
   ("USDT", "tether"),
   ("BNB", "binancecoin"),
   ("XRP", "ripple"),
   ("DOGE", "dogecoin"),
   ("TON", "the-open-network"),
   ("ADA", "cardano"),
   ("ARB", "arbitrum"),
   ("OP", "optimism")]

/-- The reverse map `{v: k for k, v in CG_IDS.items()}` built inside
`fetch_prices`. -/
def id_to_symbol : List (String × String) :=
  CG_IDS.map fun p => (p.2, p.1)

/-- Outcomes of the `urllib.request.urlopen` + `decode` + `json.loads`
block in `fetch_prices`: the three exception classes the code catches,
or a response body parsed to a JSON value. -/
inductive FetchOutcome where
  | urlError
  | timeoutError
  | jsonDecodeError
  | body : Json → FetchOutcome

/-- Whether `fetch_prices` catches the given fetch outcome: exactly the
`except (urllib.error.URLError, TimeoutError, json.JSONDecodeError)`
clause. -/
def caughtFailure : FetchOutcome → Bool
  | .urlError => true
  | .timeoutError => true
  | .jsonDecodeError => true
  | .body _ => false

/-- Model of the Python membership test `"usd" in payload`: key lookup
on a dict, element equality on a list, substring test on a string,
`TypeError` on every other value. -/
def containsUsd : Json → Except PyErr Bool
  | .obj kvs => .ok (kvs.any fun kv => kv.1 = "usd")
  | .arr xs => .ok (xs.any fun j => match j with | .str t => t = "usd" | _ => false)
  | .str s => .ok (decide (List.IsInfix "usd".toList s.toList))
  | _ => .error .typeError

/-- Python dict assignment `prices[sym] = v` on an association list:
overwrite an existing binding in place, otherwise append. -/
def dictInsert (acc : List (String × ℚ)) (k : String) (v : ℚ) : List (String × ℚ) :=
  if acc.any (fun p => p.1 = k) then
    acc.map fun p => if p.1 = k then (k, v) else p
  else acc ++ [(k, v)]

/-- The result-building loop of `fetch_prices`: for each
`(cg_id, payload)` item of the response object, reverse-map the id to a
symbol and, when the symbol is truthy and `"usd" in payload`, store
`float(payload["usd"])`.  Exceptions outside the caught set propagate. -/
def buildPrices : List (String × Json) → List (String × ℚ) → Except PyErr (List (String × ℚ))
  | [], acc => .ok acc
  | (cgId, payload) :: rest, acc =>
    match id_to_symbol.lookup cgId with
    | none => buildPrices rest acc
    | some sym =>
      if sym = "" then buildPrices rest acc
      else
        match containsUsd payload with
        | .error e => .error e
        | .ok false => buildPrices rest acc
        | .ok true =>
          match getItem payload "usd" with
          | .error e => .error e
          | .ok v =>
            match pyFloat v with
            | .error e => .error e
            | .ok q => buildPrices rest (dictInsert acc sym q)

/-- The post-parse half of `fetch_prices`: `data.items()` requires the
parsed body to be a dict (`AttributeError` otherwise), then the
result-building loop runs. -/
def extractPrices (j : Json) : Except PyErr (List (String × ℚ)) :=
  match j with
  | .obj items => buildPrices items []
  | _ => .error .attributeError

/-- Embedding of `fetch_prices`: translate the requested symbols
through `CG_IDS` (silently dropping unknown tickers), return `{}` with
no request when nothing translates, return `{}` on a caught network or
JSON-decoding failure, and otherwise post-process the parsed body. -/
def fetch_prices (symbols : List String) (outcome : FetchOutcome) :
    Except PyErr (List (String × ℚ)) :=
  let ids := symbols.filterMap fun s => CG_IDS.lookup s
  if ids.isEmpty then .ok []
  else
    match outcome with
    | .urlError => .ok []
    | .timeoutError => .ok []
    | .jsonDecodeError => .ok []
    | .body j => extractPrices j

/-- One computed report row of the `main` loop (numeric fields, before
string formatting). -/
structure ReportRow where
  sym : String
  amt : ℚ
  buy : ℚ
  live_price : ℚ
  cost : ℚ
  value : ℚ
  pnl : ℚ
  pnl_pct : ℚ
  deriving DecidableEq, Repr

/-- The fallback resolution `live.get(sym, buy)` of `main`. -/
def resolvePrice (live : List (String × ℚ)) (a : Holding) : ℚ :=
  (live.lookup a.symbol).getD a.buy_price_usd

/-- The body of the per-holding loop of `main`: resolve the price, then
compute cost, value, PnL and PnL percent, the latter guarded by the
truthiness test `if cost` (a zero float is falsy). -/
def reportRow (live : List (String × ℚ)) (a : Holding) : ReportRow :=
  let live_price := resolvePrice live a
  let cost := a.amount * a.buy_price_usd
  let value := a.amount * live_price
  let pnl := value - cost
  let pnl_pct := if cost ≠ 0 then pnl / cost * 100 else 0
  ⟨a.symbol, a.amount, a.buy_price_usd, live_price, cost, value, pnl, pnl_pct⟩

/-- The running-total accumulation of `main`
(`total_cost += cost; total_value += value`), folded over the
portfolio in order. -/
def totals (live : List (String × ℚ)) (pf : List Holding) : ℚ × ℚ :=
  pf.foldl
    (fun acc a => (acc.1 + (reportRow live a).cost, acc.2 + (reportRow live a).value))
    (0, 0)

/-- `total_pnl = total_value - total_cost` in `main`. -/
def total_pnl (live : List (String × ℚ)) (pf : List Holding) : ℚ :=
  (totals live pf).2 - (totals live pf).1

/-- `total_pct` in `main`, with the same zero-cost truthiness guard. -/
def total_pct (live : List (String × ℚ)) (pf : List Holding) : ℚ :=
  if (totals live pf).1 ≠ 0 then total_pnl live pf / (totals live pf).1 * 100 else 0

/-- One column width in `print_table`:
`max(len(h), *(len(r[i]) for r in rows))`.  With no rows the starred
generator is empty and `max` receives a single `int` argument, raising
`TypeError`; a row shorter than `i + 1` raises `IndexError`. -/
def colWidth (rows : List (List String)) (i : Nat) (h : String) : Except PyErr Nat :=
  if rows.isEmpty then .error .typeError
  else do
    let lens ← mapE
      (fun r =>
        match r[i]? with
        | some s => .ok s.length
        | none => .error .indexError)
      rows
    .ok (lens.foldl Nat.max h.length)

/-- The full `col_w` list comprehension of `print_table`. -/
def colWidths (headers : List String) (rows : List (List String)) :
    Except PyErr (List Nat) :=
  mapE (fun p => colWidth rows p.1 p.2) headers.enum

/-- The fixed header row of `main`. -/
def mainHeaders : List String :=
  ["Asset", "Amount", "Buy/USD", "Price/USD", "Cost", "Value", "PnL", "PnL%"]

/-- Whether the Python builtin `float` succeeds on this JSON value. -/
def floatOk (j : Json) : Bool :=
  match pyFloat j with
  | .ok _ => true
  | .error _ => false

/-- Pointwise well-formedness of one record, as `load_portfolio`
normalization requires it: an object whose `symbol` is a string and
whose `amount` and `buy_price_usd` coerce to floats. -/
def recordOk (a : Json) : Bool :=
  match a with
  | .obj kvs =>
    (match kvs.lookup "symbol" with
     | some (.str _) => true
     | _ => false) &&
    (match kvs.lookup "amount" with
     | some v => floatOk v
     | none => false) &&
    (match kvs.lookup "buy_price_usd" with
     | some v => floatOk v
     | none => false)
  | _ => false

/-- The inputs on which `load_portfolio` succeeds: a parsed JSON value
that Python can iterate, every iterated element being a well-formed
record. -/
def loadOkCond (inp : LoadInput) : Prop :=
  ∃ j xs, inp = .parsed j ∧ pyIter j = some xs ∧ ∀ x ∈ xs, recordOk x = true

/-- Badness of one record following the words of claim C5: the record
lacks `symbol`, `amount` or `buy_price_usd`, or has a non-numeric
amount or price.  A non-object element lacks all three fields. -/
def specRecordBad (a : Json) : Bool :=
  match a with
  | .obj kvs =>
    !((kvs.lookup "symbol").isSome &&
      (match kvs.lookup "amount" with
       | some v => floatOk v
       | none => false) &&
      (match kvs.lookup "buy_price_usd" with
       | some v => floatOk v
       | none => false))
  | _ => true

/-- The failure condition of claim C5, following its words: the loader
raises exactly when the file is missing, its contents are not valid
structured data (do not parse as JSON), or some record of the loaded
collection is bad.  A parsed value that is not an array has no records. -/
def specLoadRaises (inp : LoadInput) : Bool :=
  match inp with
  | .missing => true
  | .invalidJson => true
  | .parsed (.arr xs) => xs.any specRecordBad
  | .parsed _ => false

/-! ## Helper lemmas -/

/-- Unfolding the totals fold of `main` into arithmetic sums. -/
theorem totals_foldl (live : List (String × ℚ)) (pf : List Holding) :
    ∀ c v : ℚ,
      pf.foldl
        (fun acc a => (acc.1 + (reportRow live a).cost, acc.2 + (reportRow live a).value))
        (c, v)
      = (c + (pf.map fun a => (reportRow live a).cost).sum,
         v + (pf.map fun a => (reportRow live a).value).sum) := by
  induction pf with
  | nil => intro c v; simp
  | cons a t ih =>
    intro c v
    simp only [List.foldl_cons, List.map_cons, List.sum_cons, ih]
    rw [add_assoc, add_assoc]

/-- A fold of `Nat.max` over a list can be started at zero and the
initial value joined at the end. -/
theorem foldl_max_init (l : List Nat) :
    ∀ a : Nat, l.foldl Nat.max a = Nat.max a (l.foldl Nat.max 0) := by
  induction l with
  | nil => intro a; simp
  | cons b t ih =>
    intro a
    simp only [List.foldl_cons]
    have h0 : Nat.max 0 b = b := Nat.zero_max ..
    have h1 : Nat.max (Nat.max a b) (t.foldl Nat.max 0)
        = Nat.max a (Nat.max b (t.foldl Nat.max 0)) := Nat.max_assoc ..
    rw [ih (Nat.max a b), ih (Nat.max 0 b), h0, h1]

/-- `mapE` succeeds when the loop body succeeds on every element,
producing the pointwise results. -/
theorem mapE_ok_of_all {α β : Type} (f : α → Except PyErr β) (g : α → β) :
    ∀ xs : List α, (∀ x ∈ xs, f x = .ok (g x)) → mapE f xs = .ok (xs.map g) := by
  intro xs
  induction xs with
  | nil => intro _; rfl
  | cons x t ih =>
    intro hall
    have hx : f x = .ok (g x) := hall x (List.mem_cons_self x t)
    have ht : mapE f t = .ok (t.map g) := ih fun y hy => hall y (List.mem_cons_of_mem x hy)
    simp only [mapE, hx, ht, List.map_cons]
    rfl

/-- Every element of a successful `mapE` result is the image of some
element of the input. -/
theorem mapE_mem_of_ok {α β : Type} (f : α → Except PyErr β) :
    ∀ (xs : List α) (l : List β), mapE f xs = .ok l →
      ∀ y ∈ l, ∃ x ∈ xs, f x = .ok y := by
  intro xs
  induction xs with
  | nil =>
    intro l hl y hy
    cases hl
    simp at hy
  | cons x t ih =>
    intro l hl y hy
    simp only [mapE] at hl
    cases hfx : f x with
    | error e => rw [hfx] at hl; cases hl
    | ok b =>
      rw [hfx] at hl
      cases hft : mapE f t with
      | error e => rw [hft] at hl; cases hl
      | ok bs =>
        rw [hft] at hl
        cases hl
        rcases List.mem_cons.mp hy with hyb | hybs
        · exact ⟨x, List.mem_cons_self x t, hyb ▸ hfx⟩
        · obtain ⟨x', hx', hfx'⟩ := ih bs hft y hybs
          exact ⟨x', List.mem_cons_of_mem x hx', hfx'⟩

/-- `mapE` succeeds exactly when the loop body succeeds on every
element. -/
theorem mapE_ok_iff {α β : Type} (f : α → Except PyErr β) :
    ∀ xs : List α, (∃ l, mapE f xs = .ok l) ↔ ∀ x ∈ xs, ∃ y, f x = .ok y := by
  intro xs
  induction xs with
  | nil => simp [mapE]
  | cons x t ih =>
    constructor
    · rintro ⟨l, hl⟩ y hy
      simp only [mapE] at hl
      cases hfx : f x with
      | error e => rw [hfx] at hl; cases hl
      | ok b =>
        rw [hfx] at hl
        cases hft : mapE f t with
        | error e => rw [hft] at hl; cases hl
        | ok bs =>
          rcases List.mem_cons.mp hy with hyx | hyt
          · exact ⟨b, hyx ▸ hfx⟩
          · exact ih.mp ⟨bs, hft⟩ y hyt
    · intro hall
      obtain ⟨b, hb⟩ := hall x (List.mem_cons_self x t)
      obtain ⟨bs, hbs⟩ := ih.mpr fun y hy => hall y (List.mem_cons_of_mem x hy)
      refine ⟨b :: bs, ?_⟩
      simp only [mapE, hb, hbs]
      rfl

/-- A successful association-list lookup locates a member pair. -/
theorem lookup_mem {α β : Type} [BEq α] [LawfulBEq α] :
    ∀ (l : List (α × β)) (a : α) (b : β), l.lookup a = some b → (a, b) ∈ l := by
  intro l
  induction l with
  | nil => intro a b h; cases h
  | cons p t ih =>
    obtain ⟨k, v⟩ := p
    intro a b h
    cases hab : a == k with
    | true =>
      simp only [List.lookup, hab] at h
      cases h
      have hk : a = k := eq_of_beq hab
      rw [hk]
      exact List.mem_cons_self (k, v) t
    | false =>
      simp only [List.lookup, hab] at h
      exact List.mem_cons_of_mem (k, v) (ih a b h)

/-- In a pair list with no duplicate second components, the second
component determines the first. -/
theorem snd_nodup_inj {α β : Type} :
    ∀ l : List (α × β), (l.map Prod.snd).Nodup →
      ∀ a b c, (a, b) ∈ l → (c, b) ∈ l → a = c := by
  intro l
  induction l with
  | nil => intro _ a b c h; cases h
  | cons p t ih =>
    intro hnd a b c ha hc
    rw [List.map_cons, List.nodup_cons] at hnd
    rcases List.mem_cons.mp ha with ha1 | ha2 <;>
      rcases List.mem_cons.mp hc with hc1 | hc2
    · exact congrArg Prod.fst (ha1.trans hc1.symm)
    · exfalso
      apply hnd.1
      have hb : p.2 = b := (congrArg Prod.snd ha1).symm
      rw [hb]
      exact List.mem_map.mpr ⟨(c, b), hc2, rfl⟩
    · exfalso
      apply hnd.1
      have hb : p.2 = b := (congrArg Prod.snd hc1).symm
      rw [hb]
      exact List.mem_map.mpr ⟨(a, b), ha2, rfl⟩
    · exact ih hnd.2 a b c ha2 hc2

/-- Membership after a dict assignment: the element was already there
or carries the assigned key. -/
theorem dictInsert_mem (acc : List (String × ℚ)) (k : String) (v : ℚ) :
    ∀ kv ∈ dictInsert acc k v, kv ∈ acc ∨ kv.1 = k := by
  intro kv hkv
  unfold dictInsert at hkv
  by_cases hany : acc.any (fun p => p.1 = k)
  · rw [if_pos hany] at hkv
    obtain ⟨p, hp, hpe⟩ := List.mem_map.mp hkv
    by_cases hpk : p.1 = k
    · rw [if_pos hpk] at hpe
      right
      rw [← hpe]
    · rw [if_neg hpk] at hpe
      left
      rw [← hpe]
      exact hp
  · rw [if_neg hany] at hkv
    rcases List.mem_append.mp hkv with h1 | h2
    · exact Or.inl h1
    · right
      rw [List.mem_singleton.mp h2]

/-- Every symbol in the output of the result-building loop of
`fetch_prices` was already in the accumulator or arises by
reverse-mapping the identifier of some response item. -/
theorem buildPrices_mem :
    ∀ (items : List (String × Json)) (acc res : List (String × ℚ)),
      buildPrices items acc = .ok res →
      ∀ kv ∈ res, kv ∈ acc ∨ ∃ it ∈ items, id_to_symbol.lookup it.1 = some kv.1 := by
  intro items
  induction items with
  | nil =>
    intro acc res h kv hkv
    cases h
    exact Or.inl hkv
  | cons it rest ih =>
    obtain ⟨cgId, payload⟩ := it
    intro acc res h kv hkv
    simp only [buildPrices] at h
    split at h
    · rcases ih acc res h kv hkv with h1 | ⟨it', hit', hl'⟩
      · exact Or.inl h1
      · exact Or.inr ⟨it', List.mem_cons_of_mem _ hit', hl'⟩
    next sym hlk =>
      split at h
      · rcases ih acc res h kv hkv with h1 | ⟨it', hit', hl'⟩
        · exact Or.inl h1
        · exact Or.inr ⟨it', List.mem_cons_of_mem _ hit', hl'⟩
      · split at h
        · cases h
        · rcases ih acc res h kv hkv with h1 | ⟨it', hit', hl'⟩
          · exact Or.inl h1
          · exact Or.inr ⟨it', List.mem_cons_of_mem _ hit', hl'⟩
        · split at h
          · cases h
          next v hgi =>
            split at h
            · cases h
            next q hpf =>
              rcases ih (dictInsert acc sym q) res h kv hkv with h1 | ⟨it', hit', hl'⟩
              · rcases dictInsert_mem acc sym q kv h1 with h2 | h2
                · exact Or.inl h2
                · exact Or.inr ⟨(cgId, payload), List.mem_cons_self .., by rw [hlk, h2]⟩
              · exact Or.inr ⟨it', List.mem_cons_of_mem _ hit', hl'⟩

/-- Subscription on an object succeeds exactly on a present key. -/
theorem getItem_obj_ok (kvs : List (String × Json)) (k : String) (v : Json) :
    getItem (.obj kvs) k = .ok v ↔ kvs.lookup k = some v := by
  simp only [getItem]
  cases h : kvs.lookup k <;> simp

/-- A successful subscription means the value was an object holding the
key. -/
theorem getItem_ok_obj (a : Json) (k : String) (v : Json)
    (h : getItem a k = .ok v) : ∃ kvs, a = .obj kvs ∧ kvs.lookup k = some v := by
  cases a with
  | obj kvs => exact ⟨kvs, rfl, (getItem_obj_ok kvs k v).mp h⟩
  | num q => cases h
  | str s => cases h
  | bool b => cases h
  | null => cases h
  | arr xs => cases h

/-- `upper` succeeds exactly on strings, upper-casing them. -/
theorem pyUpper_ok (j : Json) (s : String) :
    pyUpper j = .ok s ↔ ∃ t, j = .str t ∧ s = strUpper t := by
  cases j <;> simp [pyUpper, eq_comm]

/-- Anatomy of one successfully normalized record: the record is an
object, its `symbol` field a string that the holding upper-cases, and
its `amount` and `buy_price_usd` fields coerce to the held numbers. -/
theorem normRecord_ok_cases (a : Json) (h : Holding) (hok : normRecord a = .ok h) :
    ∃ kvs s va vb, a = .obj kvs ∧
      kvs.lookup "symbol" = some (.str s) ∧ h.symbol = strUpper s ∧
      kvs.lookup "amount" = some va ∧ pyFloat va = .ok h.amount ∧
      kvs.lookup "buy_price_usd" = some vb ∧ pyFloat vb = .ok h.buy_price_usd := by
  simp only [normRecord] at hok
  split at hok
  · cases hok
  next symJ hgs =>
    split at hok
    · cases hok
    next sym hpu =>
      split at hok
      · cases hok
      next amtJ hga =>
        split at hok
        · cases hok
        next amt hfa =>
          split at hok
          · cases hok
          next buyJ hgb =>
            split at hok
            · cases hok
            next buy hfb =>
              cases hok
              obtain ⟨kvs, hobj, hls⟩ := getItem_ok_obj a "symbol" symJ hgs
              obtain ⟨kvsa, hobja, hla⟩ := getItem_ok_obj a "amount" amtJ hga
              obtain ⟨kvsb, hobjb, hlb⟩ := getItem_ok_obj a "buy_price_usd" buyJ hgb
              obtain ⟨t, hjt, hst⟩ := (pyUpper_ok symJ sym).mp hpu
              rw [hobj] at hobja hobjb
              cases hobja
              cases hobjb
              subst hjt
              exact ⟨kvs, t, amtJ, buyJ, hobj, hls, hst, hla, hfa, hlb, hfb⟩

/-- A record normalizes successfully exactly when it is pointwise
well-formed. -/
theorem normRecord_ok_iff (a : Json) :
    (∃ h, normRecord a = .ok h) ↔ recordOk a = true := by
  constructor
  · rintro ⟨h, hok⟩
    obtain ⟨kvs, s, va, vb, hobj, hls, _, hla, hfa, hlb, hfb⟩ :=
      normRecord_ok_cases a h hok
    subst hobj
    simp only [recordOk, hls, hla, hlb, floatOk, hfa, hfb, Bool.and_self]
  · intro hr
    cases a with
    | num q => cases hr
    | str s => cases hr
    | bool b => cases hr
    | null => cases hr
    | arr xs => cases hr
    | obj kvs =>
      simp only [recordOk, Bool.and_eq_true] at hr
      obtain ⟨⟨hsym, hamt⟩, hbuy⟩ := hr
      cases hls : kvs.lookup "symbol" with
      | none => rw [hls] at hsym; cases hsym
      | some symJ =>
        rw [hls] at hsym
        cases symJ <;> try cases hsym
        next s =>
        cases hla : kvs.lookup "amount" with
        | none => rw [hla] at hamt; cases hamt
        | some va =>
          rw [hla] at hamt
          cases hlb : kvs.lookup "buy_price_usd" with
          | none => rw [hlb] at hbuy; cases hbuy
          | some vb =>
            rw [hlb] at hbuy
            simp only [floatOk] at hamt hbuy
            cases hfa : pyFloat va with
            | error e => rw [hfa] at hamt; cases hamt
            | ok qa =>
              cases hfb : pyFloat vb with
              | error e => rw [hfb] at hbuy; cases hbuy
              | ok qb =>
                refine ⟨⟨strUpper s, qa, qb⟩, ?_⟩
                simp only [normRecord, getItem, hls, hla, hlb, pyUpper, hfa, hfb]

/-- `load_portfolio` succeeds exactly on the well-formed inputs. -/
theorem load_ok_iff (inp : LoadInput) :
    (∃ l, load_portfolio inp = .ok l) ↔ loadOkCond inp := by
  cases inp with
  | missing => simp [load_portfolio, loadOkCond]
  | invalidJson => simp [load_portfolio, loadOkCond]
  | parsed j =>
    simp only [load_portfolio]
    cases hit : pyIter j with
    | none => simp [loadOkCond, hit]
    | some xs =>
      constructor
      · intro hl
        refine ⟨j, xs, rfl, hit, fun x hx => ?_⟩
        exact (normRecord_ok_iff x).mp ((mapE_ok_iff normRecord xs).mp hl x hx)
      · rintro ⟨j', xs', hj, hit', hall⟩
        injection hj with hj
        subst hj
        rw [hit] at hit'
        cases hit'
        exact (mapE_ok_iff normRecord xs).mpr
          fun x hx => (normRecord_ok_iff x).mpr (hall x hx)

/-! ## Claim theorems -/

/-- Claim C1: for every holding, the resolved current price used by the
metrics computation equals the live price when the symbol is a key of
the fetched price mapping and equals the buy price otherwise; in
particular the row computes even with an empty price mapping. -/
theorem C1_resolved_price (live : List (String × ℚ)) (a : Holding) :
    (∀ p, live.lookup a.symbol = some p → (reportRow live a).live_price = p) ∧
    (live.lookup a.symbol = none → (reportRow live a).live_price = a.buy_price_usd) ∧
    (reportRow [] a).live_price = a.buy_price_usd := by
  refine ⟨fun p hp => ?_, fun hn => ?_, ?_⟩
  · simp [reportRow, resolvePrice, hp]
  · simp [reportRow, resolvePrice, hn]
  · simp [reportRow, resolvePrice]

/-- Witness for C1 at concrete inputs: a live BTC price is used, a
missing ETH price falls back to the buy price. -/
theorem C1_resolved_price_witness :
    (reportRow [("BTC", 30000)] ⟨"BTC", 1, 20000⟩).live_price = 30000 ∧
    (reportRow [("BTC", 30000)] ⟨"ETH", 2, 1500⟩).live_price = 1500 :=
  ⟨(C1_resolved_price [("BTC", 30000)] ⟨"BTC", 1, 20000⟩).1 30000 rfl,
   (C1_resolved_price [("BTC", 30000)] ⟨"ETH", 2, 1500⟩).2.1 rfl⟩

/-- Claim C2: the PnL percent of a row is 0 whenever its cost is
exactly 0, and the total PnL percent is 0 whenever the total cost is
exactly 0; the guarded branch never divides by the zero cost. -/
theorem C2_zero_cost_pct (live : List (String × ℚ)) (a : Holding)
    (pf : List Holding) :
    ((reportRow live a).cost = 0 → (reportRow live a).pnl_pct = 0) ∧
    ((totals live pf).1 = 0 → total_pct live pf = 0) := by
  constructor
  · intro h
    simp only [reportRow] at h ⊢
    simp [h]
  · intro h
    simp [total_pct, h]

/-- Witness for C2: a holding bought at price 0 has cost 0, a nonzero
value, and still PnL percent 0, as does the total over that single
holding. -/
theorem C2_zero_cost_pct_witness :
    (reportRow [("X", 5)] ⟨"X", 1, 0⟩).value = 5 ∧
    (reportRow [("X", 5)] ⟨"X", 1, 0⟩).pnl_pct = 0 ∧
    total_pct [("X", 5)] [⟨"X", 1, 0⟩] = 0 :=
  ⟨by simp [reportRow, resolvePrice, List.lookup],
   (C2_zero_cost_pct [("X", 5)] ⟨"X", 1, 0⟩ []).1 (by simp [reportRow]),
   (C2_zero_cost_pct [("X", 5)] ⟨"X", 1, 0⟩ [⟨"X", 1, 0⟩]).2
     (by simp [totals, reportRow])⟩

/-- Claim C7: for every holding the computed cost is
`amount * buy_price` and the computed value is
`amount * resolved_price`, with the fallback-resolved price. -/
theorem C7_cost_value (live : List (String × ℚ)) (a : Holding) :
    (reportRow live a).cost = a.amount * a.buy_price_usd ∧
    (reportRow live a).value = a.amount * resolvePrice live a :=
  ⟨rfl, rfl⟩

/-- Claim C8: the accumulated totals equal the arithmetic sums of the
per-row cost and value, the total PnL is total value minus total cost,
and the total PnL percent follows the zero-cost guard. -/
theorem C8_totals (live : List (String × ℚ)) (pf : List Holding) :
    (totals live pf).1 = (pf.map fun a => (reportRow live a).cost).sum ∧
    (totals live pf).2 = (pf.map fun a => (reportRow live a).value).sum ∧
    total_pnl live pf = (totals live pf).2 - (totals live pf).1 ∧
    total_pct live pf =
      (if (totals live pf).1 = 0 then 0
       else total_pnl live pf / (totals live pf).1 * 100) := by
  have ht := totals_foldl live pf 0 0
  refine ⟨?_, ?_, rfl, ?_⟩
  · simp only [totals]
    rw [ht]
    exact zero_add _
  · simp only [totals]
    rw [ht]
    exact zero_add _
  · by_cases h : (totals live pf).1 = 0
    · simp [total_pct, h]
    · simp [total_pct, h]

/-- Claim C10: with an empty rows list and a nonempty header list, the
column-width computation of the table renderer raises `TypeError`
(`max` applied to a lone integer), so a report over zero rows never
renders. -/
theorem C10_empty_rows (headers : List String) (hne : headers ≠ []) :
    colWidths headers [] = .error .typeError := by
  cases headers with
  | nil => exact absurd rfl hne
  | cons h t => rfl

/-- Witness for C10 at the actual header row of the dashboard. -/
theorem C10_empty_rows_witness : colWidths mainHeaders [] = .error .typeError :=
  C10_empty_rows mainHeaders (by decide)

/-- Counterexample to claim C4 as stated: a response body that is valid
JSON but not of the expected shape (here a JSON array) makes
`fetch_prices` raise `AttributeError` instead of returning an empty
mapping. -/
theorem C4_counterexample :
    fetch_prices ["BTC"] (.body (.arr [])) = .error .attributeError := rfl

/-- Claim C4 as amended: on every failure the code catches — network
error, timeout, or a body that is not syntactically valid JSON —
`fetch_prices` returns the empty mapping and propagates nothing. -/
theorem C4_caught_failures (symbols : List String) (o : FetchOutcome)
    (h : caughtFailure o = true) : fetch_prices symbols o = .ok [] := by
  cases o with
  | body j => cases h
  | urlError => simp only [fetch_prices]; split <;> rfl
  | timeoutError => simp only [fetch_prices]; split <;> rfl
  | jsonDecodeError => simp only [fetch_prices]; split <;> rfl

/-- Witness for C4 as amended: a URL error on a real request yields the
empty mapping. -/
theorem C4_caught_failures_witness :
    caughtFailure .urlError = true ∧ fetch_prices ["BTC"] .urlError = .ok [] :=
  ⟨rfl, C4_caught_failures ["BTC"] .urlError rfl⟩

/-- Counterexample to claim C3 as stated: requesting only `ETH` while
the response mentions `bitcoin` produces a mapping containing `BTC`, a
symbol that was not in the input list. -/
theorem C3_counterexample :
    fetch_prices ["ETH"] (.body (.obj [("bitcoin", .obj [("usd", .num 1)])]))
      = .ok [("BTC", 1)] ∧ "BTC" ∉ (["ETH"] : List String) :=
  ⟨rfl, by decide⟩

/-- Claim C3 as amended: whenever every identifier in the response
object is among the identifiers translated from the requested symbols,
the returned mapping contains only requested symbols. -/
theorem C3_keys_subset (symbols : List String) (items : List (String × Json))
    (res : List (String × ℚ))
    (hreq : ∀ it ∈ items, it.1 ∈ symbols.filterMap fun s => CG_IDS.lookup s)
    (hres : fetch_prices symbols (.body (.obj items)) = .ok res) :
    ∀ kv ∈ res, kv.1 ∈ symbols := by
  intro kv hkv
  simp only [fetch_prices] at hres
  by_cases hids : (symbols.filterMap fun s => CG_IDS.lookup s).isEmpty
  · rw [if_pos hids] at hres
    cases hres
    cases hkv
  · rw [if_neg hids] at hres
    simp only [extractPrices] at hres
    rcases buildPrices_mem items [] res hres kv hkv with h0 | ⟨it, hit, hl⟩
    · cases h0
    · have hmem : (it.1, kv.1) ∈ id_to_symbol := lookup_mem id_to_symbol it.1 kv.1 hl
      obtain ⟨p, hp, hpe⟩ := List.mem_map.mp hmem
      have h1 : (kv.1, it.1) ∈ CG_IDS := by
        have e1 : p.1 = kv.1 := congrArg Prod.snd hpe
        have e2 : p.2 = it.1 := congrArg Prod.fst hpe
        rw [← e1, ← e2]
        exact hp
      obtain ⟨s, hs, hlk⟩ := List.mem_filterMap.mp (hreq it hit)
      have h2 : (s, it.1) ∈ CG_IDS := lookup_mem CG_IDS s it.1 hlk
      have hnd : (CG_IDS.map Prod.snd).Nodup := by decide
      have hks : kv.1 = s := snd_nodup_inj CG_IDS hnd kv.1 it.1 s h1 h2
      rw [hks]
      exact hs

/-- Witness for C3 as amended: a response that mentions exactly the
requested identifier yields only the requested symbol. -/
theorem C3_keys_subset_witness :
    ("BTC" : String) ∈ (["BTC"] : List String) :=
  C3_keys_subset ["BTC"] [("bitcoin", .obj [("usd", .num 42)])] [("BTC", 42)]
    (by decide) rfl ("BTC", 42) (List.mem_singleton.mpr rfl)

/-- Counterexample to claim C5 as stated: a portfolio file holding the
bare JSON number 5 parses as valid JSON and contains no record lacking
a field, so under the stated conditions the loader must succeed, yet it
raises `TypeError` (iterating a non-iterable). -/
theorem C5_counterexample :
    specLoadRaises (.parsed (.num 5)) = false ∧
    load_portfolio (.parsed (.num 5)) = .error .typeError :=
  ⟨rfl, rfl⟩

/-- Claim C5 as amended: the loader raises exactly when the file is
missing, its contents do not parse as JSON, the parsed value cannot be
iterated, or some iterated element is not an object carrying a string
`symbol` and float-coercible `amount` and `buy_price_usd`; on a raise
no holdings list is produced. -/
theorem C5_load_raises_iff (inp : LoadInput) :
    (∃ e, load_portfolio inp = .error e) ↔ ¬ loadOkCond inp := by
  rw [← load_ok_iff]
  cases hl : load_portfolio inp with
  | ok l => simp [hl]
  | error e => simp [hl]

/-- Witness for C5 as amended: the bare-number input violates the
success condition. -/
theorem C5_load_raises_iff_witness : ¬ loadOkCond (.parsed (.num 5)) :=
  (C5_load_raises_iff (.parsed (.num 5))).mp ⟨.typeError, rfl⟩

/-- Counterexample to claim C6 as stated: a record whose symbol is the
empty string loads successfully instead of failing the load step. -/
theorem C6_counterexample :
    load_portfolio (.parsed (.arr [.obj
      [("symbol", .str ""), ("amount", .num 1), ("buy_price_usd", .num 2)]]))
      = .ok [⟨"", 1, 2⟩] := rfl

/-- Claim C6 as amended: every holding of a successful load has a
string symbol obtained by upper-casing (possibly empty), and a record
that is not an object with a string symbol and float-coercible amount
and buy price fails the whole load. -/
theorem C6_loaded_invariant :
    (∀ inp l, load_portfolio inp = .ok l →
      ∀ h ∈ l, ∃ s : String, h.symbol = strUpper s) ∧
    (∀ j xs x, pyIter j = some xs → x ∈ xs → recordOk x = false →
      ∃ e, load_portfolio (.parsed j) = .error e) := by
  constructor
  · intro inp l hl h hmem
    cases inp with
    | missing => cases hl
    | invalidJson => cases hl
    | parsed j =>
      simp only [load_portfolio] at hl
      split at hl
      · cases hl
      · obtain ⟨x, _, hnr⟩ := mapE_mem_of_ok normRecord _ l hl h hmem
        obtain ⟨kvs, s, va, vb, _, _, hsym, _⟩ := normRecord_ok_cases x h hnr
        exact ⟨s, hsym⟩
  · intro j xs x hit hx hbad
    cases hl : load_portfolio (.parsed j) with
    | error e => exact ⟨e, rfl⟩
    | ok l =>
      exfalso
      obtain ⟨j', xs', hj, hit', hall⟩ := (load_ok_iff (.parsed j)).mp ⟨l, hl⟩
      injection hj with hj
      subst hj
      rw [hit] at hit'
      cases hit'
      rw [hall x hx] at hbad
      cases hbad

/-- Witness for C6 as amended: a lower-case symbol is loaded
upper-cased, and a non-object record aborts the load. -/
theorem C6_loaded_invariant_witness :
    (∃ s : String, (Holding.mk "BTC" 1 2).symbol = strUpper s) ∧
    (∃ e, load_portfolio (.parsed (.arr [.num 5])) = .error e) :=
  ⟨C6_loaded_invariant.1
     (.parsed (.arr [.obj [("symbol", .str "btc"), ("amount", .num 1),
       ("buy_price_usd", .num 2)]]))
     [⟨"BTC", 1, 2⟩] rfl ⟨"BTC", 1, 2⟩ (List.mem_singleton.mpr rfl),
   C6_loaded_invariant.2 (.arr [.num 5]) [.num 5] (.num 5) rfl
     (List.mem_singleton.mpr rfl) rfl⟩

/-- Claim C9: with at least one row, and every row carrying a value for
every header column, the computed width of each column is the maximum
of the header length and the longest row value in that column. -/
theorem C9_col_widths (headers : List String) (rows : List (List String))
    (hne : rows ≠ [])
    (hlen : ∀ r ∈ rows, headers.length ≤ r.length) :
    ∃ ws, colWidths headers rows = .ok ws ∧
      ws.length = headers.length ∧
      ∀ i, i < headers.length →
        ws.getD i 0 =
          Nat.max (headers.getD i "").length
            ((rows.map fun r => (r.getD i "").length).foldl Nat.max 0) := by
  have hcol : ∀ p ∈ headers.enum,
      colWidth rows p.1 p.2 = .ok (Nat.max p.2.length
        ((rows.map fun r => (r.getD p.1 "").length).foldl Nat.max 0)) := by
    intro p hp
    have hip : headers[p.1]? = some p.2 := List.mem_enum_iff_getElem?.mp hp
    have hil : p.1 < headers.length := by
      obtain ⟨h1, _⟩ := List.getElem?_eq_some.mp hip
      exact h1
    simp only [colWidth]
    rw [if_neg (by simp [List.isEmpty_iff, hne])]
    have hmap : mapE
        (fun r =>
          match r[p.1]? with
          | some s => Except.ok s.length
          | none => Except.error PyErr.indexError)
        rows = .ok (rows.map fun r => (r.getD p.1 "").length) := by
      refine mapE_ok_of_all _ _ rows fun r hr => ?_
      have hlt : p.1 < r.length := lt_of_lt_of_le hil (hlen r hr)
      have hsome : r[p.1]? = some (r.getD p.1 "") := by
        rw [List.getD_eq_getElem?_getD, List.getElem?_eq_getElem hlt]
        rfl
      rw [hsome]
    rw [hmap]
    show Except.ok
        ((rows.map fun r => (r.getD p.1 "").length).foldl Nat.max p.2.length)
      = _
    rw [foldl_max_init]
  have hws : colWidths headers rows
      = .ok (headers.enum.map fun p => Nat.max p.2.length
          ((rows.map fun r => (r.getD p.1 "").length).foldl Nat.max 0)) :=
    mapE_ok_of_all _ _ headers.enum hcol
  refine ⟨_, hws, ?_, ?_⟩
  · rw [List.length_map, List.enum_length]
  · intro i hi
    have hhead : headers[i]? = some (headers.getD i "") := by
      rw [List.getD_eq_getElem?_getD, List.getElem?_eq_getElem hi]
      rfl
    have h1 : (headers.enum.map fun p => Nat.max p.2.length
        ((rows.map fun r => (r.getD p.1 "").length).foldl Nat.max 0))[i]?
        = some (Nat.max (headers.getD i "").length
            ((rows.map fun r => (r.getD i "").length).foldl Nat.max 0)) := by
      rw [List.getElem?_map, List.getElem?_enum, hhead]
      rfl
    rw [List.getD_eq_getElem?_getD, h1]
    rfl

/-- Witness for C9 at a concrete table: a long cell widens its column
past its header, a short one leaves the header width. -/
theorem C9_col_widths_witness :
    ∃ ws, colWidths ["A", "BB"] [["xxx", "y"]] = .ok ws ∧
      ws.length = 2 ∧
      ∀ i, i < 2 →
        ws.getD i 0 =
          Nat.max ((["A", "BB"] : List String).getD i "").length
            ((([["xxx", "y"]] : List (List String)).map
              fun r => (r.getD i "").length).foldl Nat.max 0) :=
  C9_col_widths ["A", "BB"] [["xxx", "y"]] (by decide) (by decide)

end Dashboard
